import Mathlib

/-!
Verification of the mcp-server gateway/transport/protocol-server core.

The definitions below are a shallow embedding of the Go source:
`gateway/gateway.go`, `client/client.go`, the streamable-HTTP transport
(`parseSSEResponse`, `parseStreamableHTTPResponse`, `NewHTTPTransport`) and
the session/SSE protocol server (`handleMCP`, `writeSSEResponse`,
`writeJSONResponse`, `getOrCreateSession`, `handleToolsCall`,
`isNotFoundError`).  Go strings are modelled as Lean `String`s (the sources
only manipulate ASCII, so bytes and characters coincide); Go errors are
modelled as their message strings, fallible functions return `Except`;
the Go map that holds the gateway registry is modelled as a list carrying
ONE possible iteration order — Go map iteration order is unspecified and
in particular is not registration order, so order-sensitive statements
must hold for every permutation of the registry (as the `ListAllTools`
theorem does) or exhibit their order-dependence explicitly (as the
`CallTool` trial-phase theorem does).  The session code in the current
server revision self-deadlocks (`getOrCreateSession` holds `s.mu` while
`generateSessionID` re-locks the same non-re-entrant mutex), which the
embedding models by returning `none` from the mint path.
-/

namespace MCPGo

/-- Model of byte-level "is prefix of" (Go `strings.HasPrefix`), on the
character lists underlying the strings. -/
def listIsPfxOf : List Char → List Char → Bool
  | [], _ => true
  | _ :: _, [] => false
  | a :: as, b :: bs => a == b && listIsPfxOf as bs

/-- Model of Go `strings.Contains`: `needle` occurs as a contiguous
sub-sequence. -/
def listContainsSub (needle : List Char) : List Char → Bool
  | [] => needle.isEmpty
  | c :: rest => listIsPfxOf needle (c :: rest) || listContainsSub needle rest

/-- Go `strings.HasPrefix s p`. -/
def strStartsWith (s p : String) : Bool := listIsPfxOf p.data s.data

/-- Go `strings.Contains s sub`. -/
def goContains (s sub : String) : Bool := listContainsSub sub.data s.data

/-- A content item of a tool invocation result (`transport.ContentItem`). -/
structure ContentItem where
  type : String
  text : String
deriving DecidableEq

/-- A tool descriptor (`transport.Tool`); the input schema plays no role in
any routing decision and is carried as an opaque string document. -/
structure Tool where
  name : String
  description : String
  inputSchema : String
deriving DecidableEq

/-- A tool invocation result (`transport.ToolResponse`). -/
structure ToolResponse where
  content : List ContentItem
deriving DecidableEq

/-- Model of a registered backend as the gateway sees it (`client.Client`):
identity metadata plus the observable behaviour of its `ListTools` and
`CallTool` operations.  `α` is the type of the opaque argument mapping,
which the gateway forwards without inspecting. -/
structure Client (α : Type) where
  name : String
  pfx : String
  listTools : Unit → Except String (List Tool)
  callTool : String → α → Except String ToolResponse

/-- The prefix-phase scan of `Gateway.CallTool` (gateway.go:113-118): the
first registered backend whose non-empty prefix is a literal prefix of the
requested name. -/
def gwPfxClient {α : Type} (clients : List (Client α)) (toolName : String) :
    Option (Client α) :=
  clients.find? (fun c => c.pfx != "" && strStartsWith toolName c.pfx)

/-- The terminal not-found message of `Gateway.CallTool` (gateway.go:132). -/
def gwNotFoundMsg (toolName : String) : String :=
  "tool \x27" ++ toolName ++ "\x27 not found in any connected MCP server"

/-- The trial phase of `Gateway.CallTool` (gateway.go:121-132): try each
backend in turn; first success wins; an error whose message contains
"not found" moves on to the next backend; any other error aborts.  The
list argument is the iteration order the Go runtime happens to yield for
the registry map on this call — unspecified, and not necessarily
registration order. -/
def gwTrialCall {α : Type} : List (Client α) → String → α → Except String ToolResponse
  | [], toolName, _ => .error (gwNotFoundMsg toolName)
  | c :: rest, toolName, args =>
    match c.callTool toolName args with
    | .ok resp => .ok resp
    | .error e =>
      if goContains e "not found" then gwTrialCall rest toolName args
      else .error e

/-- `Gateway.CallTool` (gateway.go:108-133): prefix phase, then trial
phase, over one iteration order of the registry map (unspecified in Go,
not necessarily registration order). -/
def gatewayCallTool {α : Type} (clients : List (Client α)) (toolName : String)
    (args : α) : Except String ToolResponse :=
  match gwPfxClient clients toolName with
  | some c => c.callTool toolName args
  | none => gwTrialCall clients toolName args

/-- The contribution of one backend to `Gateway.ListAllTools`
(gateway.go:95-102): its tools on success, nothing on error. -/
def clientContribution {α : Type} (c : Client α) : List Tool :=
  match c.listTools () with
  | .ok ts => ts
  | .error _ => []

/-- `Gateway.ListAllTools` (gateway.go:69-105), given the order in which
the per-backend results are drained from the channel: the concatenation of
the succeeding backends' tool lists, paired with the error value, which is
always absent. -/
def gatewayListAllTools {α : Type} (order : List (Client α)) :
    List Tool × Option String :=
  ((order.map clientContribution).flatten, none)

/-- Helper: the boolean prefix-phase predicate as a proposition. -/
theorem gwPfx_pred_eq_true {α : Type} (c : Client α) (toolName : String) :
    ((c.pfx != "" && strStartsWith toolName c.pfx) = true) ↔
      (c.pfx ≠ "" ∧ strStartsWith toolName c.pfx = true) := by
  simp [Bool.and_eq_true, bne_iff_ne]

/-- If exactly one registered backend's non-empty prefix matches, the
prefix scan finds that backend. -/
theorem gwPfxClient_eq_some {α : Type} (clients : List (Client α))
    (toolName : String) (c : Client α) (hmem : c ∈ clients)
    (hmatch : c.pfx ≠ "" ∧ strStartsWith toolName c.pfx = true)
    (huniq : ∀ c' ∈ clients,
      (c'.pfx ≠ "" ∧ strStartsWith toolName c'.pfx = true) → c' = c) :
    gwPfxClient clients toolName = some c := by
  induction clients with
  | nil => cases hmem
  | cons c0 rest ih =>
    by_cases h0 : (c0.pfx != "" && strStartsWith toolName c0.pfx) = true
    · have hc0 : c0 = c := huniq c0 (List.mem_cons_self _ _)
        ((gwPfx_pred_eq_true c0 toolName).mp h0)
      subst hc0
      simp [gwPfxClient, List.find?, h0]
    · have hc : c ∈ rest := by
        rcases List.mem_cons.mp hmem with h | h
        · exact absurd ((gwPfx_pred_eq_true c0 toolName).mpr (h ▸ hmatch)) h0
        · exact h
      have := ih hc (fun c' hc' hp => huniq c' (List.mem_cons_of_mem _ hc') hp)
      simpa [gwPfxClient, List.find?, h0] using this

/-- C1: with exactly one backend whose non-empty prefix is a literal prefix
of the requested tool name, `Gateway.CallTool` routes the call exclusively
to that backend and returns whatever that backend returns, success or
error, with no attempt at any other backend and never the gateway's
generic not-found error. -/
theorem C1_gateway_prefix_routes_exclusively {α : Type}
    (clients : List (Client α)) (toolName : String) (args : α) (c : Client α)
    (hmem : c ∈ clients)
    (hmatch : c.pfx ≠ "" ∧ strStartsWith toolName c.pfx = true)
    (huniq : ∀ c' ∈ clients,
      (c'.pfx ≠ "" ∧ strStartsWith toolName c'.pfx = true) → c' = c) :
    gatewayCallTool clients toolName args = c.callTool toolName args := by
  unfold gatewayCallTool
  rw [gwPfxClient_eq_some clients toolName c hmem hmatch huniq]

/-- Concrete backend used in witnesses: owns prefix `p:` and echoes the
requested name back as a text item. -/
def wClientA : Client Unit :=
  { name := "A", pfx := "p:"
    listTools := fun _ => .ok []
    callTool := fun n _ => .ok ⟨[⟨"text", n⟩]⟩ }

/-- Concrete backend used in witnesses: owns prefix `q:` and always fails
with a transport-style error. -/
def wClientB : Client Unit :=
  { name := "B", pfx := "q:"
    listTools := fun _ => .ok []
    callTool := fun _ _ => .error "connection refused" }

/-- Witness for C1 at a concrete registry: `p:x` routes to the backend
owning `p:` and returns its (successful) answer. -/
theorem C1_witness :
    gatewayCallTool [wClientA, wClientB] "p:x" () = .ok ⟨[⟨"text", "p:x"⟩]⟩ :=
  (C1_gateway_prefix_routes_exclusively [wClientA, wClientB] "p:x" () wClientA
    (List.mem_cons_self _ _)
    ⟨by decide, by decide⟩
    (by
      intro c' hc' hp
      rcases List.mem_cons.mp hc' with h | h
      · exact h
      · rcases List.mem_cons.mp h with h' | h'
        · exact absurd (h' ▸ hp).2 (by decide)
        · cases h')).trans rfl

/-- Concrete backend used in witnesses: no prefix, every call fails with a
not-found error, listing fails. -/
def wClientNF : Client Unit :=
  { name := "B1", pfx := ""
    listTools := fun _ => .error "boom"
    callTool := fun _ _ => .error "tool not found" }

/-- Concrete backend used in witnesses: no prefix, every call succeeds,
listing returns two tools. -/
def wClientOK : Client Unit :=
  { name := "B2", pfx := ""
    listTools := fun _ => .ok [⟨"a1", "d1", "s1"⟩, ⟨"a2", "d2", "s2"⟩]
    callTool := fun _ _ => .ok ⟨[⟨"text", "hi"⟩]⟩ }

/-- C2 (code bug): the trial phase's outcome depends on the order the
registry map happens to be iterated in, and Go leaves that order
unspecified (gateway.go:16 declares `map[string]client.Client`;
gateway.go:121 ranges over it) — so the claimed registration-order
guarantee, and with it the spec's own testable property that
`[B1 (TransportError), B2 (success)]` aborts with B1's error and never
reaches B2, is not provided by the code.  Evaluated here: one and the
same registry {B1 erroring "connection refused", B2 succeeding} — a
permutation pair — aborts with B1's error when B1 is yielded first, but
returns B2's success when B2 is yielded first. -/
theorem C2_trial_order_dependent :
    ([wClientOK, wClientB] : List (Client Unit)).Perm [wClientB, wClientOK]
    ∧ gwTrialCall [wClientB, wClientOK] "t" () = .error "connection refused"
    ∧ gwTrialCall [wClientOK, wClientB] "t" () = .ok ⟨[⟨"text", "hi"⟩]⟩
    ∧ .error "connection refused"
      ≠ (.ok ⟨[⟨"text", "hi"⟩]⟩ : Except String ToolResponse) := by
  refine ⟨List.Perm.swap _ _ _, rfl, rfl, ?_⟩
  intro h
  cases h

/-- A member of a list of lists is a contiguous segment of the flattened
list. -/
theorem infix_flatten_of_mem {β : Type} (l : List β) (L : List (List β))
    (h : l ∈ L) : l <:+: L.flatten := by
  induction L with
  | nil => cases h
  | cons a as ih =>
    rcases List.mem_cons.mp h with h' | h'
    · subst h'
      exact ⟨[], as.flatten, by simp⟩
    · exact (ih h').trans ⟨a, [], by simp⟩

/-- C6: `Gateway.ListAllTools`, whatever order the concurrent per-backend
results are drained in (any permutation of the registry), never reports an
error, returns as a multiset exactly the union of the tool lists of the
backends whose `ListTools` succeeded (erroring backends contribute
nothing), and keeps each succeeding backend's own return order as one
contiguous run. -/
theorem C6_gateway_list_all_tools {α : Type} (clients order : List (Client α))
    (hperm : order.Perm clients) :
    (gatewayListAllTools order).2 = none
    ∧ ((gatewayListAllTools order).1).Perm
        ((clients.map clientContribution).flatten)
    ∧ (∀ c ∈ order, ∀ ts, c.listTools () = .ok ts →
        ts <:+: (gatewayListAllTools order).1)
    ∧ (∀ t ∈ (gatewayListAllTools order).1,
        ∃ c ∈ clients, ∃ ts, c.listTools () = .ok ts ∧ t ∈ ts) := by
  refine ⟨rfl, ?_, ?_, ?_⟩
  · exact (hperm.map clientContribution).flatten
  · intro c hc ts hts
    have hmem : ts ∈ order.map clientContribution := by
      refine List.mem_map.mpr ⟨c, hc, ?_⟩
      simp [clientContribution, hts]
    exact infix_flatten_of_mem ts _ hmem
  · intro t ht
    obtain ⟨l, hl, htl⟩ := List.mem_flatten.mp ht
    obtain ⟨c, hc, hcl⟩ := List.mem_map.mp hl
    refine ⟨c, hperm.mem_iff.mp hc, ?_⟩
    unfold clientContribution at hcl
    rcases hsplit : c.listTools () with e | ts
    · rw [hsplit] at hcl
      subst hcl
      cases htl
    · rw [hsplit] at hcl
      subst hcl
      exact ⟨ts, rfl, htl⟩

/-- Witness for C6 at a concrete registry {failing backend, succeeding
backend}, drained in the opposite order: the merged result is exactly the
succeeding backend's two tools and the error value is absent. -/
theorem C6_witness :
    (gatewayListAllTools [wClientNF, wClientOK]).2 = none
    ∧ ((gatewayListAllTools [wClientNF, wClientOK]).1).Perm
        (([wClientOK, wClientNF].map clientContribution).flatten) :=
  ⟨(C6_gateway_list_all_tools [wClientOK, wClientNF] [wClientNF, wClientOK]
      (List.Perm.swap _ _ _)).1,
   (C6_gateway_list_all_tools [wClientOK, wClientNF] [wClientNF, wClientOK]
      (List.Perm.swap _ _ _)).2.1⟩

/-- `MCPClient.ListTools` after the transport returned `transportTools`
(client.go:113-120): when a prefix is configured, every returned tool name
gets the prefix prepended. -/
def clientListTools (pfx : String) (transportTools : List Tool) : List Tool :=
  if pfx ≠ "" then transportTools.map (fun t => { t with name := pfx ++ t.name })
  else transportTools

/-- The name `MCPClient.CallTool` forwards to the transport
(client.go:133-139): the prefix is stripped only when it is configured,
the incoming name is strictly longer than the prefix, and the name begins
with the prefix. -/
def clientActualName (pfx toolName : String) : String :=
  if pfx ≠ "" ∧ pfx.length < toolName.length then
    if toolName.data.take pfx.length = pfx.data then
      ⟨toolName.data.drop pfx.length⟩
    else toolName
  else toolName

/-- A list is a prefix of itself extended by anything. -/
theorem listIsPfxOf_append_self (p d : List Char) :
    listIsPfxOf p (p ++ d) = true := by
  induction p with
  | nil => rfl
  | cons a as ih => simp [listIsPfxOf, ih]

/-- The boolean prefix check agrees with `List.take`. -/
theorem listIsPfxOf_iff_take (p s : List Char) :
    listIsPfxOf p s = true ↔ s.take p.length = p := by
  induction p generalizing s with
  | nil => simp [listIsPfxOf]
  | cons a as ih =>
    cases s with
    | nil => simp [listIsPfxOf]
    | cons b bs =>
      simp only [listIsPfxOf, Bool.and_eq_true, beq_iff_eq, List.length_cons,
        List.take_succ_cons, List.cons.injEq, ih]
      constructor
      · rintro ⟨h1, h2⟩; exact ⟨h1.symm, h2⟩
      · rintro ⟨h1, h2⟩; exact ⟨h1.symm, h2⟩

/-- C8 counterexample input: an incoming name equal to the configured
prefix `p:` begins with the prefix, yet `CallTool` forwards it unstripped
(stripping would forward the empty name). -/
theorem C8_counterexample :
    strStartsWith "p:" "p:" = true ∧ clientActualName "p:" "p:" = "p:" ∧
      ("p:" : String) ≠ "" := by
  refine ⟨by decide, ?_, by decide⟩
  have : ¬(("p:" : String) ≠ "" ∧ ("p:" : String).length < ("p:" : String).length) := by
    intro h
    exact absurd h.2 (by decide)
  simp [clientActualName, this]

/-- C8 (amended): with a non-empty configured prefix, `ListTools` prepends
the prefix to every returned tool name, `CallTool` strips the prefix
exactly when the incoming name strictly extends it (begins with it and is
longer) — in particular a name equal to the prefix itself is forwarded
unstripped — and consequently calling any `ListTools`-returned name whose
underlying tool name is non-empty forwards the original unprefixed name to
the transport. -/
theorem C8_client_prefix_roundtrip (pfx : String) (hp : pfx ≠ "")
    (transportTools : List Tool) :
    clientListTools pfx transportTools
      = transportTools.map (fun t => { t with name := pfx ++ t.name })
    ∧ (∀ t : Tool, t.name ≠ "" → clientActualName pfx (pfx ++ t.name) = t.name)
    ∧ (∀ n : String, strStartsWith n pfx = true →
        pfx.length < n.length →
        clientActualName pfx n = ⟨n.data.drop pfx.length⟩)
    ∧ (∀ n : String, ¬(strStartsWith n pfx = true ∧ pfx.length < n.length) →
        clientActualName pfx n = n) := by
  refine ⟨by simp [clientListTools, hp], ?_, ?_, ?_⟩
  · intro t ht
    have hne : t.name.data ≠ [] := by
      intro h
      exact ht (String.ext h)
    have hdata : (pfx ++ t.name).data = pfx.data ++ t.name.data := by
      simp
    have hlen : pfx.length < (pfx ++ t.name).length := by
      have h1 : (pfx ++ t.name).length = pfx.length + t.name.length := by
        simp
      have h2 : 0 < t.name.length :=
        List.length_pos.mpr hne
      omega
    have htake : (pfx ++ t.name).data.take pfx.length = pfx.data := by
      rw [hdata]
      exact List.take_left _ _
    have hdrop : (pfx ++ t.name).data.drop pfx.length = t.name.data := by
      rw [hdata]
      exact List.drop_left _ _
    unfold clientActualName
    rw [if_pos ⟨hp, hlen⟩, if_pos htake]
    exact String.ext hdrop
  · intro n hsw hlen
    have htake : n.data.take pfx.length = pfx.data :=
      (listIsPfxOf_iff_take pfx.data n.data).mp hsw
    unfold clientActualName
    rw [if_pos ⟨hp, hlen⟩, if_pos htake]
  · intro n hnot
    unfold clientActualName
    by_cases hcond : pfx ≠ "" ∧ pfx.length < n.length
    · rw [if_pos hcond]
      have hsw : ¬strStartsWith n pfx = true := fun h => hnot ⟨h, hcond.2⟩
      have hne : n.data.take pfx.length ≠ pfx.data := fun h =>
        hsw ((listIsPfxOf_iff_take pfx.data n.data).mpr h)
      rw [if_neg hne]
    · rw [if_neg hcond]

/-- Witness for C8 at the prefix `p:`: the listed name `p:echo` round-trips
back to `echo`. -/
theorem C8_witness :
    clientListTools "p:" [⟨"echo", "d", "s"⟩] = [⟨"p:echo", "d", "s"⟩]
    ∧ clientActualName "p:" "p:echo" = "echo" :=
  ⟨((C8_client_prefix_roundtrip "p:" (by decide) [⟨"echo", "d", "s"⟩]).1).trans
      (by decide),
   ((C8_client_prefix_roundtrip "p:" (by decide) []).2.1
      ⟨"echo", "d", "s"⟩ (by decide)).trans rfl⟩

/-- The state `NewHTTPTransport` builds (transport http.go:26-39); the Go
`http.Client` with its fixed 30-second timeout is outside the shallow
embedding. -/
structure HTTPTransportSt where
  baseURL : String
  sessionID : String
  useStreamableHTTP : Bool
  requestID : Nat
deriving DecidableEq

/-- `NewHTTPTransport` (transport http.go:26-39): the wire variant is
inferred by substring-matching the base URL against
`"mcp.cloudflare.com"`. -/
def newHTTPTransport (baseURL : String) : HTTPTransportSt :=
  { baseURL := baseURL
    sessionID := ""
    useStreamableHTTP := goContains baseURL "mcp.cloudflare.com"
    requestID := 1 }

/-- Which of the two wire variants an operation uses. -/
inductive WireVariant
  | rest
  | streamable
deriving DecidableEq

/-- The dispatch at the top of `HTTPTransport.Initialize`
(http.go:138-143). -/
def initializeVariant (t : HTTPTransportSt) : WireVariant :=
  if t.useStreamableHTTP then .streamable else .rest

/-- The dispatch at the top of `HTTPTransport.ListTools`
(http.go:266-271). -/
def listToolsVariant (t : HTTPTransportSt) : WireVariant :=
  if t.useStreamableHTTP then .streamable else .rest

/-- The dispatch at the top of `HTTPTransport.CallTool`
(http.go:372-377). -/
def callToolVariant (t : HTTPTransportSt) : WireVariant :=
  if t.useStreamableHTTP then .streamable else .rest

/-- The configuration a `client.NewClient` call consumes
(client.go:41-62). -/
structure MCPConfig where
  name : String
  url : String
  transportKind : String
  pfx : String
deriving DecidableEq

/-- The transport `client.NewClient` constructs (client.go:44-56): for the
kinds `"http"` and `""` it is `NewHTTPTransport cfg.url`; any other kind
is a configuration error. -/
def newClientTransport (cfg : MCPConfig) : Except String HTTPTransportSt :=
  if cfg.transportKind = "http" ∨ cfg.transportKind = "" then
    .ok (newHTTPTransport cfg.url)
  else
    .error ("unsupported transport: " ++ cfg.transportKind)

/-- C10: the wire variant of every transport built by `NewHTTPTransport`
is inferred from the base address, not configured: the enveloped/streamed
variant is selected iff the base URL contains the substring
`"mcp.cloudflare.com"`; `Initialize`, `ListTools` and `CallTool` all
dispatch on this one flag; and `NewClient` routes every `"http"`/empty
transport kind through this constructor. -/
theorem C10_variant_inferred_from_address (url : String) :
    ((newHTTPTransport url).useStreamableHTTP = true
      ↔ goContains url "mcp.cloudflare.com" = true)
    ∧ (initializeVariant (newHTTPTransport url) = .streamable
      ↔ goContains url "mcp.cloudflare.com" = true)
    ∧ (listToolsVariant (newHTTPTransport url) = .streamable
      ↔ goContains url "mcp.cloudflare.com" = true)
    ∧ (callToolVariant (newHTTPTransport url) = .streamable
      ↔ goContains url "mcp.cloudflare.com" = true)
    ∧ (∀ cfg : MCPConfig, cfg.transportKind = "http" ∨ cfg.transportKind = "" →
        newClientTransport cfg = .ok (newHTTPTransport cfg.url)) := by
  refine ⟨Iff.rfl, ?_, ?_, ?_, ?_⟩
  · cases h : goContains url "mcp.cloudflare.com" <;>
      simp [initializeVariant, newHTTPTransport, h]
  · cases h : goContains url "mcp.cloudflare.com" <;>
      simp [listToolsVariant, newHTTPTransport, h]
  · cases h : goContains url "mcp.cloudflare.com" <;>
      simp [callToolVariant, newHTTPTransport, h]
  · intro cfg hk
    simp [newClientTransport, hk]

/-- Witness for C10: a Cloudflare address selects the streamed variant for
all three operations, a plain address selects REST, and `NewClient` with
an empty transport kind builds exactly this transport. -/
theorem C10_witness :
    initializeVariant (newHTTPTransport "https://observability.mcp.cloudflare.com/sse")
      = .streamable
    ∧ callToolVariant (newHTTPTransport "https://example.com/mcp") = .rest
    ∧ newClientTransport ⟨"cf", "https://observability.mcp.cloudflare.com/sse", "", "cf:"⟩
      = .ok (newHTTPTransport "https://observability.mcp.cloudflare.com/sse") :=
  ⟨(C10_variant_inferred_from_address
      "https://observability.mcp.cloudflare.com/sse").2.1.mpr (by decide),
   by decide,
   (C10_variant_inferred_from_address
      "https://observability.mcp.cloudflare.com/sse").2.2.2.2
      ⟨"cf", "https://observability.mcp.cloudflare.com/sse", "", "cf:"⟩
      (Or.inr rfl)⟩

/-- Go `bufio.ScanLines` drops one trailing carriage return from a
line. -/
def dropCR (l : List Char) : List Char :=
  if l.getLast? = some '\r' then l.dropLast else l

/-- The line scanner of `parseSSEResponse` (bufio.Scanner with ScanLines):
lines are terminated by newlines; a final unterminated line is emitted;
input ending in a newline produces no extra empty line.  `cur` accumulates
the current line in reverse. -/
def goLinesAux : List Char → List Char → List (List Char)
  | [], cur => if cur.isEmpty then [] else [dropCR cur.reverse]
  | c :: rest, cur =>
    if c = '\n' then dropCR cur.reverse :: goLinesAux rest []
    else goLinesAux rest (c :: cur)

/-- The lines of a body, as the Go scanner yields them. -/
def goLines (body : List Char) : List (List Char) := goLinesAux body []

/-- The literal prefix `"data: "` of parseSSEResponse (http.go:63). -/
def dataPfx : List Char := "data: ".data

/-- The literal prefix `"event: "` of parseSSEResponse (http.go:66). -/
def eventPfx : List Char := "event: ".data

/-- The scanner loop of `parseSSEResponse` (http.go:59-84): a `data: `
line appends its payload to the current block; an `event: ` line or a
blank line completes the current block if it is non-empty; every other
line is ignored; a non-empty block still open at the end of input is
completed. -/
def sseLoop : List (List Char) → List Char → List (List Char) → List (List Char)
  | [], cur, msgs => if cur.isEmpty then msgs else msgs ++ [cur]
  | line :: rest, cur, msgs =>
    if listIsPfxOf dataPfx line then
      sseLoop rest (cur ++ line.drop dataPfx.length) msgs
    else if listIsPfxOf eventPfx line then
      if cur.isEmpty then sseLoop rest cur msgs
      else sseLoop rest [] (msgs ++ [cur])
    else if line.isEmpty then
      if cur.isEmpty then sseLoop rest cur msgs
      else sseLoop rest [] (msgs ++ [cur])
    else sseLoop rest cur msgs

/-- `parseSSEResponse` (http.go:48-98) on the body bytes: the first
completed block, or the whole body when no block was recognized. -/
def parseSSEBytes (body : List Char) : List Char :=
  match sseLoop (goLines body) [] [] with
  | [] => body
  | m :: _ => m

/-- `parseSSEResponse` at the string level. -/
def parseSSEResponse (body : String) : String := ⟨parseSSEBytes body.data⟩

/-- The accumulated messages only grow at the tail: running the loop with
a message backlog prepends that backlog to the result. -/
theorem sseLoop_msgs_append (lines : List (List Char)) :
    ∀ cur msgs, sseLoop lines cur msgs = msgs ++ sseLoop lines cur [] := by
  induction lines with
  | nil =>
    intro cur msgs
    by_cases h : cur.isEmpty <;> simp [sseLoop, h]
  | cons line rest ih =>
    intro cur msgs
    by_cases hd : listIsPfxOf dataPfx line
    · simp only [sseLoop, hd, if_true]
      exact ih _ msgs
    · by_cases hev : listIsPfxOf eventPfx line
      · by_cases hc : cur.isEmpty
        · simp only [sseLoop, hd, if_false, hev, if_true, hc]
          exact ih _ msgs
        · simp only [sseLoop, hd, if_false, hev, if_true, hc, List.nil_append]
          rw [ih [] (msgs ++ [cur]), ih [] [cur], List.append_assoc]
          simp
      · by_cases hemp : line.isEmpty
        · by_cases hc : cur.isEmpty
          · simp only [sseLoop, hd, if_false, hev, hemp, if_true, hc]
            exact ih _ msgs
          · simp only [sseLoop, hd, if_false, hev, hemp, if_true, hc,
              List.nil_append]
            rw [ih [] (msgs ++ [cur]), ih [] [cur], List.append_assoc]
            simp
        · simp only [sseLoop, hd, if_false, hev, hemp]
          exact ih _ msgs

/-- An `event: ` line is never also a `data: ` line. -/
theorem eventPfx_not_dataPfx (line : List Char)
    (h : listIsPfxOf eventPfx line = true) :
    listIsPfxOf dataPfx line = false := by
  cases line with
  | nil => rfl
  | cons c cs =>
    have hc : c = 'e' := by
      have := (listIsPfxOf_iff_take eventPfx (c :: cs)).mp h
      simpa [eventPfx, List.take_succ_cons] using congrArg (List.head? ·) this
    subst hc
    rfl

/-- Lines with no `data: ` payload never complete a block: the loop with
an empty current block returns its backlog unchanged. -/
theorem sseLoop_no_data (lines : List (List Char))
    (h : ∀ l ∈ lines, listIsPfxOf dataPfx l = false) :
    ∀ msgs, sseLoop lines [] msgs = msgs := by
  induction lines with
  | nil => intro msgs; simp [sseLoop]
  | cons line rest ih =>
    intro msgs
    have hd := h line (List.mem_cons_self _ _)
    have hrest := fun l hl => h l (List.mem_cons_of_mem _ hl)
    by_cases hev : listIsPfxOf eventPfx line
    · simp only [sseLoop, hd, if_false, hev, if_true, List.isEmpty_nil]
      exact ih hrest msgs
    · by_cases hemp : line.isEmpty
      · simp only [sseLoop, hd, if_false, hev, hemp, if_true, List.isEmpty_nil]
        exact ih hrest msgs
      · simp only [sseLoop, hd, if_false, hev, hemp]
        exact ih hrest msgs

/-- C3: the Variant B event-stream parser concatenates the `data: `
payloads of one block into one document, takes the first completed block
as the RPC response discarding everything after it, falls back to the
whole body when no block is recognizable, and on the concrete body
`"data: {\"a\":1}\n\n"` yields `{"a":1}`.  (The parser produces the
document bytes; decoding them is Go stdlib `json.Unmarshal`.) -/
theorem C3_sse_stream_parsing :
    parseSSEResponse "data: \x7b\"a\":1\x7d\n\n" = "\x7b\"a\":1\x7d"
    ∧ (∀ body : String, ∀ d rest,
        goLines body.data = (dataPfx ++ d) :: ([] : List Char) :: rest →
        d ≠ [] → parseSSEResponse body = ⟨d⟩)
    ∧ (∀ body : String, ∀ d1 d2 rest,
        goLines body.data
          = (dataPfx ++ d1) :: (dataPfx ++ d2) :: ([] : List Char) :: rest →
        d1 ++ d2 ≠ [] → parseSSEResponse body = ⟨d1 ++ d2⟩)
    ∧ (∀ body : String, (∀ l ∈ goLines body.data, listIsPfxOf dataPfx l = false) →
        parseSSEResponse body = body) := by
  have hdata_nil : listIsPfxOf dataPfx ([] : List Char) = false := by decide
  have hev_nil : listIsPfxOf eventPfx ([] : List Char) = false := by decide
  refine ⟨by decide, ?_, ?_, ?_⟩
  · intro body d rest hlines hne
    have hne' : d.isEmpty = false := by
      cases d with
      | nil => exact absurd rfl hne
      | cons a as => rfl
    have hstep : sseLoop ((dataPfx ++ d) :: ([] : List Char) :: rest) [] []
        = [d] ++ sseLoop rest [] [] := by
      simp only [sseLoop, listIsPfxOf_append_self, if_true, List.drop_left,
        List.nil_append, hdata_nil, if_false, hev_nil, List.isEmpty_nil, hne']
      exact sseLoop_msgs_append rest [] [d]
    unfold parseSSEResponse parseSSEBytes
    rw [hlines, hstep, List.singleton_append]
  · intro body d1 d2 rest hlines hne
    have hne' : (d1 ++ d2).isEmpty = false := by
      cases h : d1 ++ d2 with
      | nil => exact absurd h hne
      | cons a as => rfl
    have hstep : sseLoop ((dataPfx ++ d1) :: (dataPfx ++ d2) :: ([] : List Char) :: rest) [] []
        = [d1 ++ d2] ++ sseLoop rest [] [] := by
      simp only [sseLoop, listIsPfxOf_append_self, if_true, List.drop_left,
        List.nil_append, hdata_nil, if_false, hev_nil, List.isEmpty_nil, hne']
      exact sseLoop_msgs_append rest [] [d1 ++ d2]
    unfold parseSSEResponse parseSSEBytes
    rw [hlines, hstep, List.singleton_append]
  · intro body h
    unfold parseSSEResponse parseSSEBytes
    rw [sseLoop_no_data (goLines body.data) h []]

/-- Witness for C3: a body holding two event blocks, the first with two
`data: ` lines; the parser concatenates the first block's payloads and
discards the second block. -/
theorem C3_witness :
    parseSSEResponse "data: A\ndata: B\n\ndata: C\n\n" = "AB" :=
  C3_sse_stream_parsing.2.2.1 "data: A\ndata: B\n\ndata: C\n\n"
    ['A'] ['B'] ["data: C".data, []] (by decide) (by decide)

/-- A decoded JSON value (`interface{}` after `encoding/json` decoding);
ids, parameters and argument mappings range over these. -/
inductive JVal where
  | null
  | jbool (b : Bool)
  | jnum (n : Int)
  | jstr (s : String)
  | jarr (items : List JVal)
  | jobj (fields : List (String × JVal))

/-- A JSON-RPC 2.0 request as `handleMCP` decodes it (server part:
`JSONRPCRequest`). -/
structure JSONRPCRequest where
  jsonrpc : String
  method : String
  params : Option (List (String × JVal))
  id : JVal

/-- A JSON-RPC error object (`RPCError`). -/
structure RPCError where
  code : Int
  message : String
deriving DecidableEq

/-- The result payloads the three handlers produce (`InitializeResult`,
`ToolsListResult`, `ToolCallResult`). -/
inductive RVal where
  | initRes (protocolVersion : String) (toolsCapability : Bool)
      (serverName serverVersion : String)
  | listRes (tools : List Tool)
  | callRes (content : List ContentItem)

/-- A JSON-RPC 2.0 response (`JSONRPCResponse`). -/
structure JSONRPCResponse where
  jsonrpc : String
  result : Option RVal
  error : Option RPCError
  id : JVal

/-- The server's hand-rolled `findSubstring` (server part, bottom): scan
all start offsets `0..len s - len sub` for an exact slice match. -/
def findSubstringGo (s sub : String) : Bool :=
  (List.range (s.length - sub.length + 1)).any
    (fun i => (s.data.drop i).take sub.length == sub.data)

/-- The server's hand-rolled `contains` (server part, bottom). -/
def serverContains (s sub : String) : Bool :=
  decide (sub.length ≤ s.length) &&
    (s == sub || (decide (sub.length < s.length) && findSubstringGo s sub))

/-- `isNotFoundError` (server part): the error message contains
`"not found"`.  Errors are modelled by their messages, so the Go nil-check
does not arise. -/
def isNotFoundError (e : String) : Bool := serverContains e "not found"

/-- A prefix is never longer than the list it is a prefix of. -/
theorem length_le_of_listIsPfxOf (p s : List Char)
    (h : listIsPfxOf p s = true) : p.length ≤ s.length := by
  have := (listIsPfxOf_iff_take p s).mp h
  have hlen := congrArg List.length this
  rw [List.length_take] at hlen
  omega

/-- `strings.Contains` via explicit offsets. -/
theorem listContainsSub_iff (needle hay : List Char) :
    listContainsSub needle hay = true
      ↔ ∃ i, i ≤ hay.length ∧ listIsPfxOf needle (hay.drop i) = true := by
  induction hay with
  | nil =>
    simp only [listContainsSub, List.isEmpty_iff]
    constructor
    · intro h
      exact ⟨0, Nat.le_refl _, by simp [h, listIsPfxOf]⟩
    · rintro ⟨i, -, h⟩
      cases needle with
      | nil => rfl
      | cons a as => simp [List.drop_nil, listIsPfxOf] at h
  | cons c cs ih =>
    simp only [listContainsSub, Bool.or_eq_true, ih]
    constructor
    · rintro (h | ⟨i, hi, h⟩)
      · exact ⟨0, Nat.zero_le _, h⟩
      · exact ⟨i + 1, by simpa using Nat.succ_le_succ hi, h⟩
    · rintro ⟨i, hi, h⟩
      cases i with
      | zero => exact Or.inl h
      | succ j =>
        right
        exact ⟨j, by simpa using Nat.le_of_succ_le_succ hi, h⟩

/-- The hand-rolled `findSubstring` via explicit offsets. -/
theorem findSubstringGo_iff (s sub : String) :
    findSubstringGo s sub = true
      ↔ ∃ i, i < s.length - sub.length + 1 ∧
          (s.data.drop i).take sub.length = sub.data := by
  unfold findSubstringGo
  rw [List.any_eq_true]
  constructor
  · rintro ⟨i, hi, h⟩
    exact ⟨i, List.mem_range.mp hi, by simpa using h⟩
  · rintro ⟨i, hi, h⟩
    exact ⟨i, List.mem_range.mpr hi, by simpa using h⟩

/-- The server's hand-rolled `contains` computes exactly
`strings.Contains`: the two not-found tests of gateway and server agree on
every message. -/
theorem serverContains_eq_goContains (s sub : String) :
    serverContains s sub = goContains s sub := by
  cases hgo : goContains s sub with
  | true =>
    obtain ⟨i, hi, hpfx⟩ := (listContainsSub_iff sub.data s.data).mp hgo
    have htake := (listIsPfxOf_iff_take sub.data (s.data.drop i)).mp hpfx
    have hlen : sub.length + i ≤ s.length := by
      have h1 := length_le_of_listIsPfxOf sub.data (s.data.drop i) hpfx
      have h2 : (s.data.drop i).length = s.data.length - i := List.length_drop i s.data
      have h3 : s.data.length = s.length := rfl
      have h4 : sub.data.length = sub.length := rfl
      omega
    by_cases heq : s = sub
    · unfold serverContains
      simp [heq]
    · have hlt : sub.length < s.length := by
        rcases Nat.lt_or_ge sub.length s.length with h | h
        · exact h
        · exfalso
          have hslen : s.length = sub.length := by omega
          have hi0 : i = 0 := by omega
          rw [hi0, List.drop_zero] at htake
          have htake' : s.data.take sub.length = sub.data := htake
          have hfull : s.data.take sub.length = s.data := by
            have h5 : sub.length = s.data.length := hslen.symm
            rw [h5, List.take_length]
          exact heq (String.ext (hfull.symm.trans htake'))
      have hfind : findSubstringGo s sub = true := by
        rw [findSubstringGo_iff]
        exact ⟨i, by omega, htake⟩
      unfold serverContains
      simp [hfind, Nat.le_of_lt hlt, hlt]
  | false =>
    cases hsc : serverContains s sub with
    | false => rfl
    | true =>
      exfalso
      unfold serverContains at hsc
      simp only [Bool.and_eq_true, Bool.or_eq_true, decide_eq_true_eq,
        beq_iff_eq] at hsc
      obtain ⟨hle, hcase⟩ := hsc
      rcases hcase with heq | ⟨hlt, hfind⟩
      · subst heq
        have : listContainsSub s.data s.data = true := by
          rw [listContainsSub_iff]
          exact ⟨0, Nat.zero_le _, by simp [listIsPfxOf_iff_take, List.take_length]⟩
        rw [goContains] at hgo
        rw [this] at hgo
        cases hgo
      · obtain ⟨i, hi, htake⟩ := (findSubstringGo_iff s sub).mp hfind
        have : listContainsSub sub.data s.data = true := by
          rw [listContainsSub_iff]
          refine ⟨i, ?_, (listIsPfxOf_iff_take _ _).mpr htake⟩
          have : s.data.length = s.length := rfl
          omega
        rw [goContains] at hgo
        rw [this] at hgo
        cases hgo

/-- The decimal digit character for `d`. -/
def digitChar (d : Nat) : Char := Char.ofNat (48 + d)

/-- Decimal rendering of a natural number, big-endian, with enough fuel to
terminate structurally (`fmt.Sprintf("%d", n)`). -/
def natReprAux : Nat → Nat → List Char
  | 0, _ => []
  | fuel + 1, n =>
    if n < 10 then [digitChar n]
    else natReprAux fuel (n / 10) ++ [digitChar (n % 10)]

/-- Decimal rendering of a natural number (`fmt.Sprintf("%d", n)`). -/
def natRepr (n : Nat) : String := ⟨natReprAux (n + 1) n⟩

/-- The identifier `generateSessionID` formats (part_000:211-212):
`fmt.Sprintf("session-%d", t)` for the nanosecond wall-clock reading
`t`. -/
def mkSessionId (t : Nat) : String := "session-" ++ natRepr t

/-- A session (`Session`): identifier and creation instant. -/
structure Session where
  id : String
  createdAt : Nat
deriving DecidableEq

/-- The mutable server state: the session table (a Go map modelled as an
association list with most-recent-first lookup). -/
structure ServerSt where
  sessions : List (String × Session)
deriving DecidableEq

/-- `generateSessionID` (part_000:207-213): takes `s.mu.Lock()` before
reading the clock and formatting the identifier.  `muAlreadyHeld` records
whether the calling goroutine already holds `s.mu`; `sync.RWMutex` is not
re-entrant, so the second `Lock()` then blocks forever, modelled as
`none`. -/
def generateSessionID (muAlreadyHeld : Bool) (now : Nat) : Option String :=
  if muAlreadyHeld then none else some (mkSessionId now)

/-- `getOrCreateSession` (part_000:216-234): takes `s.mu.Lock()`, reuses
the named session when the supplied identifier is non-empty and present,
and otherwise calls `generateSessionID` while still holding the lock
(part_000:227) — so the mint path self-deadlocks and never returns
(`none`); the stored-session branch is the only one that completes. -/
def getOrCreateSession (st : ServerSt) (sessionID : String) (now : Nat) :
    Option (Session × ServerSt) :=
  if sessionID ≠ "" then
    match st.sessions.lookup sessionID with
    | some sess => some (sess, st)
    | none =>
      match generateSessionID true now with
      | none => none
      | some nid => some (⟨nid, now⟩, ⟨(nid, ⟨nid, now⟩) :: st.sessions⟩)
  else
    match generateSessionID true now with
    | none => none
    | some nid => some (⟨nid, now⟩, ⟨(nid, ⟨nid, now⟩) :: st.sessions⟩)

/-- The local echo tool descriptor (`tools.GetEchoTool`); the structured
input schema is carried opaquely. -/
def echoTool : Tool :=
  ⟨"echo", "Echo back the provided message", "echo-input-schema"⟩

/-- The local Google PSE tool descriptor (`tools.GetGooglePSETool`; its
defining file is not in the tree — the name `google_pse_search` is fixed
by the server's dispatch, the other fields are opaque here and play no
role in any claim). -/
def googlePseTool : Tool :=
  ⟨"google_pse_search", "Search the web using Google Programmable Search Engine",
    "google-pse-input-schema"⟩

/-- `tools.CallEcho`: return the `message` argument when it is a string,
otherwise a parameter error. -/
def callEcho (args : List (String × JVal)) : Except String String :=
  match args.lookup "message" with
  | some (.jstr m) => .ok m
  | _ => .error "message argument is required and must be a string"

/-- The environment `handleMCP` runs in: the gateway registry, the local
Google-PSE invocation (network-backed, hence abstract), and the stdlib
JSON marshaller for responses (`json.Marshal`, abstract). -/
structure ServerEnv where
  clients : List (Client (List (String × JVal)))
  googlePse : List (String × JVal) → Except String String
  marshal : JSONRPCResponse → String

/-- `handleInitialize` (server part): a fixed capability descriptor. -/
def handleInitialize (req : JSONRPCRequest) : JSONRPCResponse :=
  { jsonrpc := "2.0"
    result := some (.initRes "2024-11-05" true "mcp-go" "0.1.0")
    error := none
    id := req.id }

/-- `handleToolsList` (server part): the two local descriptors followed by
the gateway's merged tools; the gateway's error value is always absent, so
the degradation branch never runs. -/
def handleToolsList (env : ServerEnv) (req : JSONRPCRequest) :
    Except String JSONRPCResponse :=
  .ok { jsonrpc := "2.0"
        result := some (.listRes
          ([echoTool, googlePseTool] ++ (gatewayListAllTools env.clients).1))
        error := none
        id := req.id }

/-- The server's terminal not-found message in `handleToolsCall`. -/
def toolNotFoundMsg (toolName : String) : String :=
  "tool \x27" ++ toolName ++ "\x27 not found"

/-- The argument mapping `handleToolsCall` extracts: the `arguments`
parameter when it is an object, an empty mapping otherwise. -/
def argsOfParams (params : List (String × JVal)) : List (String × JVal) :=
  match params.lookup "arguments" with
  | some (.jobj fields) => fields
  | _ => []

/-- `handleToolsCall` (server part): parameter extraction, the two local
tools by exact name, then the gateway; a gateway error is replaced by the
server's own not-found exactly when `isNotFoundError` holds, and
propagates unchanged otherwise. -/
def handleToolsCall (env : ServerEnv) (req : JSONRPCRequest) :
    Except String JSONRPCResponse :=
  match req.params with
  | none => .error "missing params"
  | some params =>
    match params.lookup "name" with
    | some (.jstr toolName) =>
      let args := argsOfParams params
      if toolName = "echo" then
        match callEcho args with
        | .error e => .error e
        | .ok m =>
          .ok { jsonrpc := "2.0", result := some (.callRes [⟨"text", m⟩])
                error := none, id := req.id }
      else if toolName = "google_pse_search" then
        match env.googlePse args with
        | .error e => .error e
        | .ok r =>
          .ok { jsonrpc := "2.0", result := some (.callRes [⟨"text", r⟩])
                error := none, id := req.id }
      else
        match gatewayCallTool env.clients toolName args with
        | .ok resp =>
          .ok { jsonrpc := "2.0", result := some (.callRes resp.content)
                error := none, id := req.id }
        | .error e =>
          if isNotFoundError e then .error (toolNotFoundMsg toolName)
          else .error e
    | _ => .error "missing or invalid \x27name\x27 in params"

/-- How a reply is framed on the wire. -/
inductive Framing where
  | sse
  | json
deriving DecidableEq

/-- What the server writes for one request: the framing, the headers the
write helper sets, and the body bytes. -/
structure WireWrite where
  framing : Framing
  headers : List (String × String)
  body : String
deriving DecidableEq

/-- The headers `writeSSEResponse` sets (server part). -/
def sseHeaders : List (String × String) :=
  [("Content-Type", "text/event-stream"),
   ("Cache-Control", "no-cache"),
   ("Connection", "keep-alive"),
   ("Access-Control-Allow-Origin", "*"),
   ("Access-Control-Allow-Headers", "Content-Type, Mcp-Session-Id")]

/-- The headers `writeJSONResponse` sets (server part). -/
def jsonHeaders : List (String × String) :=
  [("Content-Type", "application/json"),
   ("Access-Control-Allow-Origin", "*"),
   ("Access-Control-Allow-Headers", "Content-Type, Mcp-Session-Id")]

/-- `writeSSEResponse` (server part): one server-pushed event block,
`data: <json>` plus a blank line. -/
def writeSSEResponse (marshal : JSONRPCResponse → String)
    (resp : JSONRPCResponse) : WireWrite :=
  { framing := .sse, headers := sseHeaders
    body := "data: " ++ marshal resp ++ "\n\n" }

/-- `writeJSONResponse` (server part): one plain JSON document
(`json.Encoder.Encode` appends a newline). -/
def writeJSONResponse (marshal : JSONRPCResponse → String)
    (resp : JSONRPCResponse) : WireWrite :=
  { framing := .json, headers := jsonHeaders
    body := marshal resp ++ "\n" }

/-- The Accept-header test of `handleMCP` (server part): absent, exactly
the event-stream type, exactly `*/*`, or any non-empty value that does
not mention the plain-JSON media type. -/
def useSSE (accept : String) : Bool :=
  accept == "" || accept == "text/event-stream" || accept == "*/*" ||
    (accept != "" && !(goContains accept "application/json"))

/-- An inbound HTTP POST as `handleMCP` observes it: the session header
(`""` when absent), the Accept header (`""` when absent), and the decoded
body (`none` when `json.Decode` fails). -/
structure InboundReq where
  sessionHeader : String
  accept : String
  body : Option JSONRPCRequest

/-- The valid-request pipeline of `handleMCP`: dispatch on the method,
convert a handler error into the generic server-error envelope, then
force the request id and default the version tag. -/
def dispatchMCP (env : ServerEnv) (req : JSONRPCRequest) : JSONRPCResponse :=
  let dispatched : Except String JSONRPCResponse :=
    if req.method = "initialize" then .ok (handleInitialize req)
    else if req.method = "tools/list" then handleToolsList env req
    else if req.method = "tools/call" then handleToolsCall env req
    else .ok { jsonrpc := "2.0", result := none
               error := some ⟨-32601, "Method not found"⟩, id := req.id }
  let response : JSONRPCResponse :=
    match dispatched with
    | .error e => { jsonrpc := "2.0", result := none
                    error := some ⟨-32000, e⟩, id := req.id }
    | .ok r => r
  { response with
    id := req.id
    jsonrpc := if response.jsonrpc = "" then "2.0" else response.jsonrpc }

/-- The outcome of `handleMCP` on one request: the new server state, the
session id written into the response header, the response envelope at the
moment of writing, and the wire write itself. -/
structure HandleResult where
  state : ServerSt
  sessionId : String
  response : JSONRPCResponse
  write : WireWrite

/-- `handleMCP` (server part, part_000:275-374): session lookup first
(part_000:283) — a step that never returns when `getOrCreateSession` has
to mint, so the handler produces no outcome at all then (`none`).  When
the session step completes: session header, then body decoding (malformed
bodies and bad version tags are answered as plain JSON regardless of
Accept), then dispatch and framing per `useSSE`.  (Only POST reaches this
logic; other methods are rejected upstream of everything modelled
here.) -/
def handleMCP (env : ServerEnv) (st : ServerSt) (now : Nat)
    (inb : InboundReq) : Option HandleResult :=
  match getOrCreateSession st inb.sessionHeader now with
  | none => none
  | some (session, st') =>
    match inb.body with
    | none =>
      let resp : JSONRPCResponse :=
        { jsonrpc := "2.0", result := none
          error := some ⟨-32700, "Parse error"⟩, id := .null }
      some { state := st', sessionId := session.id, response := resp
             write := writeJSONResponse env.marshal resp }
    | some req =>
      if req.jsonrpc ≠ "2.0" then
        let resp : JSONRPCResponse :=
          { jsonrpc := "2.0", result := none
            error := some ⟨-32600, "Invalid Request"⟩, id := req.id }
        some { state := st', sessionId := session.id, response := resp
               write := writeJSONResponse env.marshal resp }
      else
        let resp := dispatchMCP env req
        if useSSE inb.accept then
          some { state := st', sessionId := session.id, response := resp
                 write := writeSSEResponse env.marshal resp }
        else
          some { state := st', sessionId := session.id, response := resp
                 write := writeJSONResponse env.marshal resp }

/-- Concrete environment used in server witnesses: empty registry, a
Google-PSE call that always fails, a trivial marshaller. -/
def wEnv : ServerEnv :=
  { clients := []
    googlePse := fun _ => .error "google pse not configured"
    marshal := fun _ => "{}" }

/-- C4 (code bug): the framing negotiation never runs — `handleMCP` calls
the deadlocking `getOrCreateSession` (part_000:283) before the body is
parsed or the Accept header is consulted, so no reply of either framing
is ever written.  Evaluated at an inbound call whose absent Accept header
satisfies the claim's event-stream condition (`useSSE "" = true`), with a
malformed body and with a well-formed request: the handler produces no
outcome at all. -/
theorem C4_framing_unreachable :
    useSSE "" = true
    ∧ handleMCP wEnv ⟨[]⟩ 0 ⟨"", "", none⟩ = none
    ∧ handleMCP wEnv ⟨[]⟩ 0
        ⟨"", "", some ⟨"2.0", "initialize", none, .null⟩⟩ = none := by
  exact ⟨rfl, rfl, rfl⟩

/-- C5 (code bug): the request
`{"jsonrpc":"2.0","method":"bogus","id":7}` never yields any envelope —
the handler hangs minting a session before the body is parsed — so no
response carrying the method-not-found code and the echoed id `7` is ever
produced.  The second conjunct evaluates the (unreachable) dispatch
pipeline below the deadlock to show what the reply would have been: the
`-32601` envelope with version `"2.0"` and id `7`, exactly as the claim
describes. -/
theorem C5_envelope_never_produced :
    handleMCP wEnv ⟨[]⟩ 0 ⟨"", "", some ⟨"2.0", "bogus", none, .jnum 7⟩⟩ = none
    ∧ dispatchMCP wEnv ⟨"2.0", "bogus", none, .jnum 7⟩
      = ⟨"2.0", none, some ⟨-32601, "Method not found"⟩, .jnum 7⟩ := by
  exact ⟨rfl, rfl⟩

/-- C7: in the gateway's trial phase and in the server's `tools/call`
dispatch, a backend error triggers the fallback (trying the next backend,
or reporting the server's own tool-not-found) exactly when
`isNotFoundError` holds of it, and every other error propagates to the
caller unchanged.  Both sites are stated through the server's own
`isNotFoundError`; that it coincides with the gateway's
`strings.Contains(err, "not found")` test is
`serverContains_eq_goContains`. -/
theorem C7_notfound_interception {α : Type} (c : Client α)
    (rest : List (Client α)) (toolName : String) (args : α) (e : String)
    (hc : c.callTool toolName args = .error e)
    (env : ServerEnv) (req : JSONRPCRequest) (params : List (String × JVal))
    (rname : String) (e' : String)
    (hp : req.params = some params)
    (hname : params.lookup "name" = some (.jstr rname))
    (hne : rname ≠ "echo") (hng : rname ≠ "google_pse_search")
    (hgw : gatewayCallTool env.clients rname (argsOfParams params) = .error e') :
    (isNotFoundError e = true →
      gwTrialCall (c :: rest) toolName args = gwTrialCall rest toolName args)
    ∧ (isNotFoundError e = false →
      gwTrialCall (c :: rest) toolName args = .error e)
    ∧ (isNotFoundError e' = true →
      handleToolsCall env req = .error (toolNotFoundMsg rname))
    ∧ (isNotFoundError e' = false →
      handleToolsCall env req = .error e') := by
  have hiff : isNotFoundError e = goContains e "not found" :=
    serverContains_eq_goContains e "not found"
  refine ⟨?_, ?_, ?_, ?_⟩
  · intro h
    have hgo : goContains e "not found" = true := hiff ▸ h
    simp [gwTrialCall, hc, hgo]
  · intro h
    have hgo : goContains e "not found" = false := hiff ▸ h
    simp [gwTrialCall, hc, hgo]
  · intro h
    unfold handleToolsCall
    simp only [hp, hname]
    simp [hne, hng, hgw, h]
  · intro h
    unfold handleToolsCall
    simp only [hp, hname]
    simp [hne, hng, hgw, h]

/-- Concrete backend over JSON argument mappings used in the C7 witness:
every call fails with a not-found error. -/
def wClientNFJ : Client (List (String × JVal)) :=
  { name := "R", pfx := ""
    listTools := fun _ => .ok []
    callTool := fun _ _ => .error "tool not found" }

/-- Concrete environment for the C7 witness: one backend that reports
not-found for everything. -/
def wEnvNF : ServerEnv :=
  { clients := [wClientNFJ]
    googlePse := fun _ => .error "google pse not configured"
    marshal := fun _ => "{}" }

/-- Witness for C7: a transport-style error aborts the trial phase
unchanged, while a gateway-wide not-found is replaced by the server's own
tool-not-found for the requested name. -/
theorem C7_witness :
    gwTrialCall [wClientB] "t" () = .error "connection refused"
    ∧ handleToolsCall wEnvNF ⟨"2.0", "tools/call", some [("name", .jstr "x")], .null⟩
      = .error (toolNotFoundMsg "x") := by
  have happ := C7_notfound_interception wClientB [] "t" () "connection refused"
    rfl wEnvNF ⟨"2.0", "tools/call", some [("name", .jstr "x")], .null⟩
    [("name", .jstr "x")] "x" (gwNotFoundMsg "x") rfl rfl (by decide) (by decide)
    rfl
  exact ⟨happ.2.1 (by decide), happ.2.2.1 (by decide)⟩

/-- C9 (code bug): the mint path never completes.  `getOrCreateSession`
takes `s.mu.Lock()` and, still holding it, calls `generateSessionID`,
which locks the same non-re-entrant `sync.RWMutex`
(part_000:208/217/227) — so a request whose session header is absent, or
names no stored session, deadlocks and no identifier is ever minted or
returned in a response header.  The server starts with an empty table
(`NewServer`, part_000:199-204) and only the deadlocking path could fill
it, so every request against any reachable server state hangs: the
handler produces no outcome for any environment, clock reading, body,
Accept header or session header. -/
theorem C9_mint_path_deadlocks :
    (∀ (st : ServerSt) (now : Nat), getOrCreateSession st "" now = none)
    ∧ (∀ (sid : String) (now : Nat), getOrCreateSession ⟨[]⟩ sid now = none)
    ∧ (∀ (env : ServerEnv) (now : Nat) (inb : InboundReq),
        handleMCP env ⟨[]⟩ now inb = none) := by
  have hmiss : ∀ (sid : String) (now : Nat),
      getOrCreateSession ⟨[]⟩ sid now = none := by
    intro sid now
    unfold getOrCreateSession generateSessionID
    by_cases h : sid ≠ "" <;> simp [h, List.lookup]
  refine ⟨?_, hmiss, ?_⟩
  · intro st now
    unfold getOrCreateSession generateSessionID
    simp
  · intro env now inb
    unfold handleMCP
    rw [hmiss inb.sessionHeader now]

end MCPGo
